import Mathlib

/-!
# Sensor hub and gesture policy of `libs/core/input.cpp`

A shallow embedding of the lazily constructed sensor hub (`pxt::inp`), of the
gesture subscription policy (`input::onGesture`), of the range setter
(`input::setAccelerometerRange`) and of the acceleration read-out
(`input::acceleration`), followed by the properties proved about them.

The mutable program state is threaded explicitly as a `World`; every externally
visible side effect (hub construction, a call of the driver's range setter, a
registration with the event bridge) is appended to the world's effect log, in
program order.
-/

set_option linter.unusedVariables false

namespace pxt

/-! ## Constants of the device runtime -/

/-- Numeric constants that `input.cpp` takes from the device runtime headers
(`pxt.h`, `LIS3DH.h`).  Their values are not fixed by `input.cpp`, so all
definitions take them as a parameter. -/
structure DeviceConsts where
  DEVICE_ID_GESTURE : Int
  ACCELEROMETER_EVT_SHAKE : Int
  ACCELEROMETER_EVT_TILT_UP : Int
  ACCELEROMETER_EVT_TILT_DOWN : Int
  ACCELEROMETER_EVT_TILT_LEFT : Int
  ACCELEROMETER_EVT_TILT_RIGHT : Int
  ACCELEROMETER_EVT_FACE_UP : Int
  ACCELEROMETER_EVT_FACE_DOWN : Int
  ACCELEROMETER_EVT_FREEFALL : Int
  ACCELEROMETER_EVT_3G : Int
  ACCELEROMETER_EVT_6G : Int
  ACCELEROMETER_EVT_8G : Int

/-! ## Enumerations of `input.cpp` -/

/-- The `enum class Dimension`. -/
inductive Dimension
  | X
  | Y
  | Z
  | Strength
  deriving DecidableEq, Repr

/-- The `enum class AcceleratorRange`. -/
inductive AcceleratorRange
  | OneG
  | TwoG
  | FourG
  | EightG
  deriving DecidableEq, Repr

/-- The cast `(int)range`: the enumerators are `OneG = 1`, `TwoG = 2`,
`FourG = 4`, `EightG = 8`. -/
def AcceleratorRange.toInt : AcceleratorRange → Int
  | .OneG => 1
  | .TwoG => 2
  | .FourG => 4
  | .EightG => 8

/-- The `enum class Gesture`. -/
inductive Gesture
  | Shake
  | TiltUp
  | TiltDown
  | TiltLeft
  | TiltRight
  | FaceUp
  | FaceDown
  | FreeFall
  | ThreeG
  | SixG
  | EightG
  deriving DecidableEq, Repr, Fintype

/-- The cast `(int)gesture`: every enumerator is bound to the accelerometer event
code of the same name. -/
def Gesture.toInt (k : DeviceConsts) : Gesture → Int
  | .Shake => k.ACCELEROMETER_EVT_SHAKE
  | .TiltUp => k.ACCELEROMETER_EVT_TILT_UP
  | .TiltDown => k.ACCELEROMETER_EVT_TILT_DOWN
  | .TiltLeft => k.ACCELEROMETER_EVT_TILT_LEFT
  | .TiltRight => k.ACCELEROMETER_EVT_TILT_RIGHT
  | .FaceUp => k.ACCELEROMETER_EVT_FACE_UP
  | .FaceDown => k.ACCELEROMETER_EVT_FACE_DOWN
  | .FreeFall => k.ACCELEROMETER_EVT_FREEFALL
  | .ThreeG => k.ACCELEROMETER_EVT_3G
  | .SixG => k.ACCELEROMETER_EVT_6G
  | .EightG => k.ACCELEROMETER_EVT_8G

/-- The event codes of the eleven gestures are pairwise different. -/
def DeviceConsts.CodesDistinct (k : DeviceConsts) : Prop :=
  ∀ g h : Gesture, Gesture.toInt k g = Gesture.toInt k h → g = h

instance (k : DeviceConsts) : Decidable k.CodesDistinct := by
  unfold DeviceConsts.CodesDistinct
  infer_instance

/-- One admissible assignment of the constants, with pairwise different event
codes; used to instantiate the parametric statements. -/
def sampleConsts : DeviceConsts where
  DEVICE_ID_GESTURE := 27
  ACCELEROMETER_EVT_SHAKE := 11
  ACCELEROMETER_EVT_TILT_UP := 1
  ACCELEROMETER_EVT_TILT_DOWN := 2
  ACCELEROMETER_EVT_TILT_LEFT := 3
  ACCELEROMETER_EVT_TILT_RIGHT := 4
  ACCELEROMETER_EVT_FACE_UP := 5
  ACCELEROMETER_EVT_FACE_DOWN := 6
  ACCELEROMETER_EVT_FREEFALL := 7
  ACCELEROMETER_EVT_3G := 8
  ACCELEROMETER_EVT_6G := 9
  ACCELEROMETER_EVT_8G := 10

/-- A gesture is a shock gesture when it is one of `ThreeG`, `SixG`, `EightG`. -/
def Gesture.isShock : Gesture → Bool
  | .ThreeG => true
  | .SixG => true
  | .EightG => true
  | _ => false

/-! ## Peripherals and program state -/

/-- A callback of the block runtime (the type `Action`), identified by a handle. -/
abbrev Action := Nat

/-- The handle type `Accelerometer` of the first argument of `onGesture`. -/
abbrev Accelerometer := Nat

/-- Modelled from the spec: the accelerometer driver class `LIS3DH`, whose
declaration is not part of `input.cpp`.  The spec describes the sensing range as a
mutable configuration stored inside the driver, and the readings as a cached
3-axis vector in milli-g that is all zero before any sample arrived. -/
structure LIS3DH where
  sampleRange : Int
  x : Int
  y : Int
  z : Int
  deriving DecidableEq, Repr

/-- Modelled from the spec: the driver as constructed by `acc(i2c, int1)`; the
range of a fresh hub defaults to 2g. -/
def LIS3DH.init : LIS3DH := { sampleRange := 2, x := 0, y := 0, z := 0 }

/-- Modelled from the spec: `LIS3DH::getRange`, the configured sensing range. -/
def LIS3DH.getRange (a : LIS3DH) : Int := a.sampleRange

/-- Modelled from the spec: `LIS3DH::setRange`, storing the new sensing range in
the driver. -/
def LIS3DH.setRange (a : LIS3DH) (range : Int) : LIS3DH := { a with sampleRange := range }

/-- Modelled from the spec: `LIS3DH::getX`, the cached reading along x. -/
def LIS3DH.getX (a : LIS3DH) : Int := a.x

/-- Modelled from the spec: `LIS3DH::getY`, the cached reading along y. -/
def LIS3DH.getY (a : LIS3DH) : Int := a.y

/-- Modelled from the spec: `LIS3DH::getZ`, the cached reading along z. -/
def LIS3DH.getZ (a : LIS3DH) : Int := a.z

/-- Modelled from the spec: `LIS3DH::instantaneousAccelerationSquared`, the squared
Euclidean norm of the 3-axis reading. -/
def LIS3DH.instantaneousAccelerationSquared (a : LIS3DH) : Int :=
  a.x * a.x + a.y * a.y + a.z * a.z

/-- The class `Input`, reduced to the member the operations below touch (the
bus, the pins and the thermometer carry no state read by them). -/
structure Input where
  acc : LIS3DH
  deriving DecidableEq, Repr

/-- The constructor `Input::Input()`. -/
def Input.new : Input := { acc := LIS3DH.init }

/-- An externally visible side effect. -/
inductive Effect
  /-- The expression `new Input()` ran: the peripherals were constructed. -/
  | construct
  /-- The driver's `setRange(range)` was called. -/
  | setRange (range : Int)
  /-- The call `registerWithDal(id, event, body)` was made. -/
  | registerWithDal (id : Int) (event : Int) (body : Action)
  deriving DecidableEq, Repr

/-- The program state: the static pointer `Input::_instance` (`none` is the null
pointer, `some i` points to a hub in state `i`) and the log of effects so far.
The only allocation site is `inp`, whose construction is logged, so a hub is
identified by its state together with the number of constructions in the log. -/
structure World where
  _instance : Option Input
  log : List Effect
  deriving DecidableEq, Repr

/-- The state at program start: no hub, nothing happened. -/
def World.fresh : World := { _instance := none, log := [] }

/-- The accessor `pxt::inp()`: constructs the hub when the pointer is null, and
returns the hub together with the new state. -/
def inp (w : World) : Input × World :=
  match w._instance with
  | none =>
    let i := Input.new
    (i, { _instance := some i, log := w.log ++ [Effect.construct] })
  | some i => (i, w)

/-- The call `acc->setRange(range)` through the pointer `&inp()->acc`: updates the
driver inside the hub and records the call. -/
def accSetRange (range : Int) (w : World) : World :=
  { _instance := w._instance.map (fun i => { i with acc := i.acc.setRange range }),
    log := w.log ++ [Effect.setRange range] }

/-- Modelled from the spec: `registerWithDal(id, event, body)` of the runtime,
which registers the callback for (source id, event code) with the event bridge. -/
def registerWithDal (id : Int) (event : Int) (body : Action) (w : World) : World :=
  { w with log := w.log ++ [Effect.registerWithDal id event body] }

/-! ## Operations of namespace `input` -/

/-- The function `input::onGesture`. -/
def onGesture (k : DeviceConsts) (accelerometer : Accelerometer) (gesture : Gesture)
    (body : Action) (w : World) : World :=
  let (hub, w1) := inp w
  let gi := Gesture.toInt k gesture
  let w2 :=
    if gi = k.ACCELEROMETER_EVT_3G ∧ hub.acc.getRange < 3 then
      accSetRange 4 w1
    else if (gi = k.ACCELEROMETER_EVT_6G ∨ gi = k.ACCELEROMETER_EVT_8G) ∧ hub.acc.getRange < 6 then
      accSetRange 8 w1
    else
      w1
  registerWithDal k.DEVICE_ID_GESTURE gi body w2

/-- The function `input::setAccelerometerRange`. -/
def setAccelerometerRange (range : AcceleratorRange) (w : World) : World :=
  accSetRange range.toInt (inp w).2

/-! ## Observations -/

/-- The accelerometer's configured range, as read by `inp()->acc.getRange()`. -/
def accRange (w : World) : Int := (inp w).1.acc.getRange

/-- The values passed to the driver's `setRange`, oldest first. -/
def setRangeCalls (w : World) : List Int :=
  w.log.filterMap (fun e => match e with
    | Effect.setRange r => some r
    | _ => none)

/-- The registrations made with the event bridge, oldest first. -/
def subscriptions (w : World) : List (Int × Int × Action) :=
  w.log.filterMap (fun e => match e with
    | Effect.registerWithDal id ev b => some (id, ev, b)
    | _ => none)

/-- The number of times the peripherals were constructed. -/
def constructions (w : World) : Nat :=
  w.log.count Effect.construct

/-! ## Sequences of calls -/

/-- A sequence of `onGesture` calls, run in order; each call is given by its
three arguments. -/
def onGestures (k : DeviceConsts) (calls : List (Accelerometer × Gesture × Action))
    (w : World) : World :=
  calls.foldl (fun w c => onGesture k c.1 c.2.1 c.2.2 w) w

/-- A call of one of the two public operations that touch the range. -/
inductive Op
  | onGesture (accelerometer : Accelerometer) (gesture : Gesture) (body : Action)
  | setAccelerometerRange (range : AcceleratorRange)
  deriving DecidableEq, Repr

/-- Running one call. -/
def Op.run (k : DeviceConsts) : Op → World → World
  | .onGesture a g b, w => pxt.onGesture k a g b w
  | .setAccelerometerRange r, w => pxt.setAccelerometerRange r w

/-- Running a sequence of calls in order. -/
def runOps (k : DeviceConsts) (ops : List Op) (w : World) : World :=
  ops.foldl (fun w o => o.run k w) w

/-- The hub accessor called `n` times in a row: the hubs returned, in order, and
the final state. -/
def inpTimes : Nat → World → List Input × World
  | 0, w => ([], w)
  | n + 1, w =>
    let (i, w1) := inp w
    let (is, w2) := inpTimes n w1
    (i :: is, w2)

/-- The range update performed by one `onGesture` call with event code `gi`, on
the number read by `getRange`: the two guarded `setRange` calls of the source. -/
def stepRange (k : DeviceConsts) (r : Int) (gi : Int) : Int :=
  if gi = k.ACCELEROMETER_EVT_3G ∧ r < 3 then 4
  else if (gi = k.ACCELEROMETER_EVT_6G ∨ gi = k.ACCELEROMETER_EVT_8G) ∧ r < 6 then 8
  else r

/-- A state in which the hub exists and its accelerometer has range `r`. -/
def worldWithRange (r : Int) : World :=
  { _instance := some { acc := { sampleRange := r, x := 0, y := 0, z := 0 } }, log := [] }

/-! ## Single-precision arithmetic and the acceleration read-out

The strength read-out is `(int)sqrtf(s)` for the `int` reading `s`: the reading is
converted to IEEE 754 binary32, `sqrtf` returns the correctly rounded square root,
and the cast truncates.  Non-negative binary32 values are represented exactly, as
a numerator over a power of two. -/

/-- The quotient `n / 2 ^ sh` rounded to the nearest integer, ties to the even
one. -/
def roundNearestEven (n sh : Nat) : Nat :=
  if sh = 0 then n
  else if n % 2 ^ sh > 2 ^ (sh - 1) ∨ (n % 2 ^ sh = 2 ^ (sh - 1) ∧ n / 2 ^ sh % 2 = 1) then
    n / 2 ^ sh + 1
  else n / 2 ^ sh

/-- The implicit conversion of a non-negative `int` to `float` at the call of
`sqrtf`: the nearest number with a 24-bit significand, ties to even.  The result
is an integer and is returned as such. -/
def floatOfInt (n : Nat) : Nat :=
  if n < 2 ^ 24 then n
  else roundNearestEven n (Nat.log2 n - 23) * 2 ^ (Nat.log2 n - 23)

/-- A non-negative binary32 value, `num / 2 ^ scale`. -/
structure Float32 where
  num : Nat
  scale : Nat
  deriving DecidableEq, Repr

/-- The C library function `sqrtf` on an integer-valued argument `v < 2 ^ 48`: the
square root rounded to the nearest number with a 24-bit significand.  With
`p = (47 - log2 v) / 2` the scaled root `sqrt v * 2 ^ p` lies in
`[2 ^ 23, 2 ^ 24)`, its integer part is `k0`, and it is rounded up exactly when it
exceeds `k0 + 1/2`, that is when `v * 4 ^ p > k0 * k0 + k0`. -/
def sqrtf (v : Nat) : Float32 :=
  let p := (47 - Nat.log2 v) / 2
  let k0 := Nat.sqrt (v * 4 ^ p)
  { num := if k0 * k0 + k0 < v * 4 ^ p then k0 + 1 else k0, scale := p }

/-- The cast `(int)f` of a non-negative `float`: truncation. -/
def Float32.toInt (f : Float32) : Int := ((f.num / 2 ^ f.scale : Nat) : Int)

/-- The function `input::acceleration`.  The reading passed to `sqrtf` is a sum of
squares, so its conversion through `Int.toNat` loses nothing; the `return 0` after
the `switch` is not reachable for the four enumerators. -/
def acceleration (dimension : Dimension) (w : World) : Int × World :=
  match dimension with
  | .X => ((inp w).1.acc.getX, (inp w).2)
  | .Y => ((inp w).1.acc.getY, (inp w).2)
  | .Z => ((inp w).1.acc.getZ, (inp w).2)
  | .Strength =>
    ((sqrtf (floatOfInt (inp w).1.acc.instantaneousAccelerationSquared.toNat)).toInt,
      (inp w).2)

/-- A state in which the hub exists and the driver reports the reading
`(x, y, z)` at the default range. -/
def worldWithSample (x y z : Int) : World :=
  { _instance := some { acc := { sampleRange := 2, x := x, y := y, z := z } }, log := [] }

/-! ## Auxiliary functions for the statements -/

/-- The effects appended by the hub accessor: one construction when the pointer is
null, nothing otherwise. -/
def inpEffects (w : World) : List Effect :=
  match w._instance with
  | none => [Effect.construct]
  | some _ => []

/-- The driver calls made by one `onGesture` call with event code `gi` when
`getRange` reads `r`. -/
def escalationEffects (k : DeviceConsts) (r : Int) (gi : Int) : List Effect :=
  if gi = k.ACCELEROMETER_EVT_3G ∧ r < 3 then [Effect.setRange 4]
  else if (gi = k.ACCELEROMETER_EVT_6G ∨ gi = k.ACCELEROMETER_EVT_8G) ∧ r < 6 then
    [Effect.setRange 8]
  else []

/-- The four ranges of `AcceleratorRange`. -/
def validRange (r : Int) : Prop := r = 1 ∨ r = 2 ∨ r = 4 ∨ r = 8

instance (r : Int) : Decidable (validRange r) := by
  unfold validRange
  infer_instance

/-! ## Basic facts about the hub accessor and the effects -/

theorem inp_snd_instance (w : World) : (inp w).2._instance = some (inp w).1 := by
  unfold inp
  cases h : w._instance <;> simp [h]

theorem inp_of_instance {w : World} {i : Input} (h : w._instance = some i) :
    inp w = (i, w) := by
  unfold inp
  simp [h]

theorem inp_inp (w : World) : inp (inp w).2 = inp w := by
  rw [inp_of_instance (inp_snd_instance w)]

theorem accRange_inp (w : World) : accRange (inp w).2 = accRange w := by
  unfold accRange
  rw [inp_inp]

theorem accRange_registerWithDal (id ev : Int) (b : Action) (w : World) :
    accRange (registerWithDal id ev b w) = accRange w := by
  unfold accRange registerWithDal inp
  cases h : w._instance <;> simp [h]

theorem accRange_accSetRange (r : Int) (w : World) :
    accRange (accSetRange r (inp w).2) = r := by
  unfold accRange accSetRange
  rw [inp_of_instance (i := { (inp w).1 with acc := (inp w).1.acc.setRange r })]
  · simp [LIS3DH.getRange, LIS3DH.setRange]
  · simp [inp_snd_instance]

/-- The range after one `onGesture` call, as a function of the range before. -/
theorem accRange_onGesture (k : DeviceConsts) (a : Accelerometer) (g : Gesture)
    (b : Action) (w : World) :
    accRange (onGesture k a g b w) =
      if Gesture.toInt k g = k.ACCELEROMETER_EVT_3G ∧ accRange w < 3 then 4
      else if (Gesture.toInt k g = k.ACCELEROMETER_EVT_6G ∨
          Gesture.toInt k g = k.ACCELEROMETER_EVT_8G) ∧ accRange w < 6 then 8
      else accRange w := by
  have e : onGesture k a g b w =
      registerWithDal k.DEVICE_ID_GESTURE (Gesture.toInt k g) b
        (if Gesture.toInt k g = k.ACCELEROMETER_EVT_3G ∧ accRange w < 3 then
          accSetRange 4 (inp w).2
        else if (Gesture.toInt k g = k.ACCELEROMETER_EVT_6G ∨
            Gesture.toInt k g = k.ACCELEROMETER_EVT_8G) ∧ accRange w < 6 then
          accSetRange 8 (inp w).2
        else (inp w).2) := rfl
  rw [e, accRange_registerWithDal]
  split_ifs
  · exact accRange_accSetRange 4 w
  · exact accRange_accSetRange 8 w
  · exact accRange_inp w

theorem toInt_eq_3G_iff {k : DeviceConsts} (hk : k.CodesDistinct) (g : Gesture) :
    Gesture.toInt k g = k.ACCELEROMETER_EVT_3G ↔ g = .ThreeG :=
  ⟨fun h => hk g .ThreeG h, fun h => by rw [h]; rfl⟩

theorem toInt_eq_6G_iff {k : DeviceConsts} (hk : k.CodesDistinct) (g : Gesture) :
    Gesture.toInt k g = k.ACCELEROMETER_EVT_6G ↔ g = .SixG :=
  ⟨fun h => hk g .SixG h, fun h => by rw [h]; rfl⟩

theorem toInt_eq_8G_iff {k : DeviceConsts} (hk : k.CodesDistinct) (g : Gesture) :
    Gesture.toInt k g = k.ACCELEROMETER_EVT_8G ↔ g = .EightG :=
  ⟨fun h => hk g .EightG h, fun h => by rw [h]; rfl⟩

/-- With pairwise different event codes, the range after `onGesture` depends on
the gesture itself. -/
theorem accRange_onGesture_distinct {k : DeviceConsts} (hk : k.CodesDistinct)
    (a : Accelerometer) (g : Gesture) (b : Action) (w : World) :
    accRange (onGesture k a g b w) =
      if g = .ThreeG ∧ accRange w < 3 then 4
      else if (g = .SixG ∨ g = .EightG) ∧ accRange w < 6 then 8
      else accRange w := by
  rw [accRange_onGesture]
  simp only [toInt_eq_3G_iff hk, toInt_eq_6G_iff hk, toInt_eq_8G_iff hk]

theorem accRange_onGesture_step (k : DeviceConsts) (a : Accelerometer) (g : Gesture)
    (b : Action) (w : World) :
    accRange (onGesture k a g b w) = stepRange k (accRange w) (Gesture.toInt k g) :=
  accRange_onGesture k a g b w

theorem accRange_onGestures (k : DeviceConsts) (calls : List (Accelerometer × Gesture × Action))
    (w : World) :
    accRange (onGestures k calls w) =
      (calls.map (fun c => Gesture.toInt k c.2.1)).foldl (stepRange k) (accRange w) := by
  induction calls generalizing w with
  | nil => rfl
  | cons c cs ih =>
    simp only [onGestures, List.foldl_cons, List.map_cons] at ih ⊢
    rw [ih, accRange_onGesture_step]

theorem le_stepRange (k : DeviceConsts) (r gi : Int) : r ≤ stepRange k r gi := by
  unfold stepRange
  split_ifs <;> omega

theorem le_foldl_stepRange (k : DeviceConsts) (gs : List Int) (r : Int) :
    r ≤ gs.foldl (stepRange k) r := by
  induction gs generalizing r with
  | nil => exact le_refl r
  | cons g gs ih => exact le_trans (le_stepRange k r g) (ih _)

theorem accRange_le_onGestures (k : DeviceConsts)
    (calls : List (Accelerometer × Gesture × Action)) (w : World) :
    accRange w ≤ accRange (onGestures k calls w) := by
  rw [accRange_onGestures]
  exact le_foldl_stepRange k _ _

/-! ## Escalation -/

/-- Claim C1. With pairwise different event codes: `onGesture` for the 3g shock
from a range below 3 (so from 1 or 2) leaves the range at exactly 4; `onGesture`
for the 6g or the 8g shock from a range below 6 (so from 1, 2 or 4) leaves it at
exactly 8; and from range 2 the calls for 3g shock, shake, 6g shock give the
ranges 4, 4, 8 in turn. -/
theorem C1_escalation_exact (k : DeviceConsts) (hk : k.CodesDistinct) (w : World)
    (a : Accelerometer) (cb : Action) :
    (accRange w < 3 → accRange (onGesture k a .ThreeG cb w) = 4) ∧
    (accRange w < 6 → accRange (onGesture k a .SixG cb w) = 8) ∧
    (accRange w < 6 → accRange (onGesture k a .EightG cb w) = 8) ∧
    (accRange w = 2 → ∀ (a2 a3 : Accelerometer) (cb2 cb3 : Action),
      accRange (onGesture k a .ThreeG cb w) = 4 ∧
      accRange (onGesture k a2 .Shake cb2 (onGesture k a .ThreeG cb w)) = 4 ∧
      accRange (onGesture k a3 .SixG cb3
        (onGesture k a2 .Shake cb2 (onGesture k a .ThreeG cb w))) = 8) := by
  refine ⟨?_, ?_, ?_, ?_⟩
  · intro h
    rw [accRange_onGesture_distinct hk]
    simp [h]
  · intro h
    rw [accRange_onGesture_distinct hk]
    simp [h]
  · intro h
    rw [accRange_onGesture_distinct hk]
    simp [h]
  · intro h a2 a3 cb2 cb3
    simp [accRange_onGesture_distinct hk, h]

theorem C1_escalation_exact_witness :
    sampleConsts.CodesDistinct ∧
    accRange (onGesture sampleConsts 0 .ThreeG 0 (worldWithRange 1)) = 4 ∧
    accRange (onGesture sampleConsts 0 .SixG 0 (worldWithRange 4)) = 8 :=
  ⟨by decide,
    (C1_escalation_exact sampleConsts (by decide) (worldWithRange 1) 0 0).1 (by decide),
    (C1_escalation_exact sampleConsts (by decide) (worldWithRange 4) 0 0).2.1 (by decide)⟩

/-! ## Effects of one call -/

theorem inp_log (w : World) : (inp w).2.log = w.log ++ inpEffects w := by
  unfold inp inpEffects
  cases h : w._instance <;> simp [h]

theorem onGesture_log (k : DeviceConsts) (a : Accelerometer) (g : Gesture) (b : Action)
    (w : World) :
    (onGesture k a g b w).log =
      w.log ++ (inpEffects w ++ escalationEffects k (accRange w) (Gesture.toInt k g)) ++
        [Effect.registerWithDal k.DEVICE_ID_GESTURE (Gesture.toInt k g) b] := by
  have e : onGesture k a g b w =
      registerWithDal k.DEVICE_ID_GESTURE (Gesture.toInt k g) b
        (if Gesture.toInt k g = k.ACCELEROMETER_EVT_3G ∧ accRange w < 3 then
          accSetRange 4 (inp w).2
        else if (Gesture.toInt k g = k.ACCELEROMETER_EVT_6G ∨
            Gesture.toInt k g = k.ACCELEROMETER_EVT_8G) ∧ accRange w < 6 then
          accSetRange 8 (inp w).2
        else (inp w).2) := rfl
  rw [e]
  unfold escalationEffects registerWithDal
  split_ifs <;> simp [accSetRange, inp_log]

theorem setAccelerometerRange_log (r : AcceleratorRange) (w : World) :
    (setAccelerometerRange r w).log = w.log ++ (inpEffects w ++ [Effect.setRange r.toInt]) := by
  simp [setAccelerometerRange, accSetRange, inp_log]

theorem accRange_setAccelerometerRange (r : AcceleratorRange) (w : World) :
    accRange (setAccelerometerRange r w) = r.toInt :=
  accRange_accSetRange r.toInt w

theorem setRangeCalls_append_log (w : World) (es : List Effect) (l : List Effect)
    (h : l = w.log ++ es) :
    List.filterMap (fun e => match e with
      | Effect.setRange r => some r
      | _ => none) l =
    setRangeCalls w ++ List.filterMap (fun e => match e with
      | Effect.setRange r => some r
      | _ => none) es := by
  rw [h, List.filterMap_append]
  rfl

theorem setRangeCalls_onGesture (k : DeviceConsts) (a : Accelerometer) (g : Gesture)
    (b : Action) (w : World) :
    setRangeCalls (onGesture k a g b w) =
      setRangeCalls w ++
        (if Gesture.toInt k g = k.ACCELEROMETER_EVT_3G ∧ accRange w < 3 then [4]
        else if (Gesture.toInt k g = k.ACCELEROMETER_EVT_6G ∨
            Gesture.toInt k g = k.ACCELEROMETER_EVT_8G) ∧ accRange w < 6 then [8]
        else []) := by
  unfold setRangeCalls
  rw [setRangeCalls_append_log w _ _ (by rw [onGesture_log, List.append_assoc])]
  congr 1
  unfold inpEffects escalationEffects
  cases w._instance <;> split_ifs <;> simp

theorem setRangeCalls_setAccelerometerRange (r : AcceleratorRange) (w : World) :
    setRangeCalls (setAccelerometerRange r w) = setRangeCalls w ++ [r.toInt] := by
  unfold setRangeCalls
  rw [setRangeCalls_append_log w _ _ (setAccelerometerRange_log r w)]
  congr 1
  unfold inpEffects
  cases w._instance <;> simp

/-- Claim C2. With pairwise different event codes, `onGesture` for a gesture
that is not a shock gesture (shake, the four tilts, face up, face down, free fall)
leaves the configured range as it was, whatever it was, and makes no call of the
driver's `setRange`. -/
theorem C2_non_shock_keeps_range (k : DeviceConsts) (hk : k.CodesDistinct) (g : Gesture)
    (hg : g.isShock = false) (a : Accelerometer) (cb : Action) (w : World) :
    accRange (onGesture k a g cb w) = accRange w ∧
    setRangeCalls (onGesture k a g cb w) = setRangeCalls w := by
  have h3 : g ≠ .ThreeG := by rintro rfl; simp [Gesture.isShock] at hg
  have h6 : g ≠ .SixG := by rintro rfl; simp [Gesture.isShock] at hg
  have h8 : g ≠ .EightG := by rintro rfl; simp [Gesture.isShock] at hg
  constructor
  · rw [accRange_onGesture_distinct hk]
    simp [h3, h6, h8]
  · rw [setRangeCalls_onGesture]
    simp [toInt_eq_3G_iff hk, toInt_eq_6G_iff hk, toInt_eq_8G_iff hk, h3, h6, h8]

theorem C2_non_shock_keeps_range_witness :
    sampleConsts.CodesDistinct ∧ Gesture.isShock .Shake = false ∧
    accRange (onGesture sampleConsts 0 .Shake 0 (worldWithRange 1)) = accRange (worldWithRange 1) ∧
    setRangeCalls (onGesture sampleConsts 0 .Shake 0 (worldWithRange 1)) =
      setRangeCalls (worldWithRange 1) :=
  ⟨by decide, rfl,
    C2_non_shock_keeps_range sampleConsts (by decide) .Shake rfl 0 0 (worldWithRange 1)⟩

/-! ## Monotonicity over sequences of subscriptions -/

theorem stepRange_ge_three {k : DeviceConsts} (r : Int) : 3 ≤ stepRange k r k.ACCELEROMETER_EVT_3G := by
  unfold stepRange
  split_ifs <;> omega

theorem stepRange_ge_six {k : DeviceConsts} (r gi : Int)
    (h3 : gi ≠ k.ACCELEROMETER_EVT_3G)
    (h : gi = k.ACCELEROMETER_EVT_6G ∨ gi = k.ACCELEROMETER_EVT_8G) :
    6 ≤ stepRange k r gi := by
  unfold stepRange
  split_ifs with h1 h2
  · exact absurd h1.1 h3
  · omega
  · have : ¬ r < 6 := fun hr => h2 ⟨h, hr⟩
    omega

/-- After a sequence of calls that contains a call with event code `gi`, the range
is at least what a single call with `gi` produces from any range at all, whenever
that value is a lower bound `m` for the single step. -/
theorem foldl_stepRange_ge (k : DeviceConsts) (gs : List Int) (gi : Int) (m : Int)
    (hm : ∀ r, m ≤ stepRange k r gi) (hmem : gi ∈ gs) (r : Int) :
    m ≤ gs.foldl (stepRange k) r := by
  induction gs generalizing r with
  | nil => simp at hmem
  | cons g gs ih =>
    rw [List.foldl_cons]
    rcases List.mem_cons.1 hmem with h | h
    · subst h
      exact le_trans (hm r) (le_foldl_stepRange k gs _)
    · exact ih h _

/-- Lower bounds on the range after a sequence of `onGesture` calls. -/
theorem onGestures_range_bounds (k : DeviceConsts) (hk : k.CodesDistinct)
    (calls : List (Accelerometer × Gesture × Action)) (w : World) :
    accRange w ≤ accRange (onGestures k calls w) ∧
    ∀ c ∈ calls,
      (c.2.1 = .ThreeG → 3 ≤ accRange (onGestures k calls w)) ∧
      (c.2.1 = .SixG ∨ c.2.1 = .EightG → 6 ≤ accRange (onGestures k calls w)) := by
  refine ⟨accRange_le_onGestures k calls w, ?_⟩
  intro c hc
  have hmem : Gesture.toInt k c.2.1 ∈ calls.map (fun c => Gesture.toInt k c.2.1) :=
    List.mem_map.2 ⟨c, hc, rfl⟩
  rw [accRange_onGestures]
  constructor
  · intro h
    rw [h] at hmem
    exact foldl_stepRange_ge k _ _ 3 (fun r => stepRange_ge_three r) hmem _
  · intro h
    refine foldl_stepRange_ge k _ _ 6 (fun r => stepRange_ge_six r _ ?_ ?_) hmem _
    · intro h3
      have := (toInt_eq_3G_iff hk c.2.1).1 h3
      rcases h with h | h <;> rw [h] at this <;> cases this
    · rcases h with h | h
      · left; rw [h]; rfl
      · right; rw [h]; rfl

/-- Claim C3. With pairwise different event codes, for every starting state and
every finite sequence of `onGesture` calls: the range after the sequence is at
least the range before it, at least 3 when the sequence contains the 3g shock, and
at least 6 when it contains the 6g or the 8g shock. -/
theorem C3_range_monotone (k : DeviceConsts) (hk : k.CodesDistinct)
    (calls : List (Accelerometer × Gesture × Action)) (w : World) :
    accRange w ≤ accRange (onGestures k calls w) ∧
    ∀ c ∈ calls,
      (c.2.1 = .ThreeG → 3 ≤ accRange (onGestures k calls w)) ∧
      (c.2.1 = .SixG ∨ c.2.1 = .EightG → 6 ≤ accRange (onGestures k calls w)) :=
  onGestures_range_bounds k hk calls w

theorem C3_range_monotone_witness :
    sampleConsts.CodesDistinct ∧
    accRange (worldWithRange 1) ≤
      accRange (onGestures sampleConsts [(0, .Shake, 0), (0, .SixG, 1), (0, .ThreeG, 2)]
        (worldWithRange 1)) ∧
    6 ≤ accRange (onGestures sampleConsts [(0, .Shake, 0), (0, .SixG, 1), (0, .ThreeG, 2)]
        (worldWithRange 1)) :=
  ⟨by decide,
    (C3_range_monotone sampleConsts (by decide)
      [(0, .Shake, 0), (0, .SixG, 1), (0, .ThreeG, 2)] (worldWithRange 1)).1,
    ((C3_range_monotone sampleConsts (by decide)
      [(0, .Shake, 0), (0, .SixG, 1), (0, .ThreeG, 2)] (worldWithRange 1)).2
        (0, .SixG, 1) (by decide)).2 (Or.inl rfl)⟩

theorem stepRange_eight (k : DeviceConsts) (gi : Int) : stepRange k 8 gi = 8 := by
  unfold stepRange
  split_ifs <;> omega

theorem foldl_stepRange_eight (k : DeviceConsts) (gs : List Int) :
    gs.foldl (stepRange k) 8 = 8 := by
  induction gs with
  | nil => rfl
  | cons g gs ih => rw [List.foldl_cons, stepRange_eight, ih]

/-- Claim C4. Once the range is 8, `onGesture` for any gesture, shock or not,
leaves it at 8, and so does any sequence of `onGesture` calls. -/
theorem C4_no_deescalation (k : DeviceConsts) (w : World) (h : accRange w = 8) :
    (∀ (a : Accelerometer) (g : Gesture) (cb : Action),
      accRange (onGesture k a g cb w) = 8) ∧
    (∀ calls : List (Accelerometer × Gesture × Action),
      accRange (onGestures k calls w) = 8) := by
  constructor
  · intro a g cb
    rw [accRange_onGesture_step, h, stepRange_eight]
  · intro calls
    rw [accRange_onGestures, h, foldl_stepRange_eight]

theorem C4_no_deescalation_witness :
    accRange (worldWithRange 8) = 8 ∧
    accRange (onGesture sampleConsts 0 .ThreeG 0 (worldWithRange 8)) = 8 ∧
    accRange (onGestures sampleConsts [(0, .ThreeG, 0), (0, .Shake, 1), (0, .EightG, 2)]
      (worldWithRange 8)) = 8 :=
  ⟨rfl, (C4_no_deescalation sampleConsts (worldWithRange 8) rfl).1 0 .ThreeG 0,
    (C4_no_deescalation sampleConsts (worldWithRange 8) rfl).2 _⟩

/-! ## Subscriptions mixed with explicit range changes -/

theorem runOps_append (k : DeviceConsts) (xs ys : List Op) (w : World) :
    runOps k (xs ++ ys) w = runOps k ys (runOps k xs w) := by
  simp [runOps, List.foldl_append]

theorem runOps_map_onGesture (k : DeviceConsts)
    (calls : List (Accelerometer × Gesture × Action)) (w : World) :
    runOps k (calls.map (fun c => Op.onGesture c.1 c.2.1 c.2.2)) w = onGestures k calls w := by
  induction calls generalizing w with
  | nil => rfl
  | cons c cs ih =>
    simp only [runOps, onGestures, List.map_cons, List.foldl_cons] at ih ⊢
    exact ih _

/-- Claim C5, refuted as stated: from a fresh hub, subscribing to the 6g shock
gives range 8, and `setAccelerometerRange(OneG)` then sets the range to 1, below
the 6 that the subscribed gesture requires and below the range before the call. -/
theorem C5_counterexample :
    (sampleConsts.DEVICE_ID_GESTURE, Gesture.toInt sampleConsts .SixG, 0) ∈
      subscriptions (runOps sampleConsts
        [Op.onGesture 0 .SixG 0, Op.setAccelerometerRange .OneG] World.fresh) ∧
    accRange (runOps sampleConsts [Op.onGesture 0 .SixG 0] World.fresh) = 8 ∧
    accRange (runOps sampleConsts
      [Op.onGesture 0 .SixG 0, Op.setAccelerometerRange .OneG] World.fresh) = 1 ∧
    ¬ (6 ≤ accRange (runOps sampleConsts
      [Op.onGesture 0 .SixG 0, Op.setAccelerometerRange .OneG] World.fresh)) ∧
    ¬ (accRange (runOps sampleConsts [Op.onGesture 0 .SixG 0] World.fresh) ≤
      accRange (runOps sampleConsts
        [Op.onGesture 0 .SixG 0, Op.setAccelerometerRange .OneG] World.fresh)) := by
  decide

/-- Claim C5, amended. With pairwise different event codes, in the state reached
from a fresh hub by any sequence `pre` of `onGesture` and `setAccelerometerRange`
calls: (1) a following `setAccelerometerRange(range)` sets the range to
`(int)range` whatever the range and the subscriptions were, by exactly one driver
call `setRange((int)range)`; (2) after any following sequence of `onGesture` calls
the range is at least the range reached after `pre`, at least 3 when the 3g shock
was subscribed after `pre`, and at least 6 when the 6g or the 8g shock was
subscribed after `pre`.  So the range covers every gesture subscribed since the
last `setAccelerometerRange`, no `onGesture` call ever reduces it, and only
`setAccelerometerRange` can. -/
theorem C5_range_covers_since_last_set (k : DeviceConsts) (hk : k.CodesDistinct)
    (pre : List Op) (calls : List (Accelerometer × Gesture × Action)) :
    (∀ range : AcceleratorRange,
      accRange (runOps k (pre ++ [Op.setAccelerometerRange range]) World.fresh) =
        range.toInt ∧
      setRangeCalls (runOps k (pre ++ [Op.setAccelerometerRange range]) World.fresh) =
        setRangeCalls (runOps k pre World.fresh) ++ [range.toInt]) ∧
    accRange (runOps k pre World.fresh) ≤
      accRange (runOps k (pre ++ calls.map (fun c => Op.onGesture c.1 c.2.1 c.2.2))
        World.fresh) ∧
    ∀ c ∈ calls,
      (c.2.1 = .ThreeG → 3 ≤ accRange
        (runOps k (pre ++ calls.map (fun c => Op.onGesture c.1 c.2.1 c.2.2)) World.fresh)) ∧
      (c.2.1 = .SixG ∨ c.2.1 = .EightG → 6 ≤ accRange
        (runOps k (pre ++ calls.map (fun c => Op.onGesture c.1 c.2.1 c.2.2)) World.fresh)) := by
  refine ⟨fun range => ?_, ?_⟩
  · rw [runOps_append]
    exact ⟨accRange_setAccelerometerRange range _,
      setRangeCalls_setAccelerometerRange range _⟩
  · rw [runOps_append, runOps_map_onGesture]
    exact onGestures_range_bounds k hk calls _

theorem C5_range_covers_since_last_set_witness :
    sampleConsts.CodesDistinct ∧
    accRange (runOps sampleConsts
      ([Op.onGesture 0 .SixG 0, Op.setAccelerometerRange .OneG] ++
        [Op.setAccelerometerRange .FourG]) World.fresh) = 4 ∧
    accRange (runOps sampleConsts [Op.onGesture 0 .SixG 0, Op.setAccelerometerRange .OneG]
      World.fresh) ≤
    accRange (runOps sampleConsts ([Op.onGesture 0 .SixG 0, Op.setAccelerometerRange .OneG] ++
      [(0, Gesture.ThreeG, 1)].map (fun c => Op.onGesture c.1 c.2.1 c.2.2)) World.fresh) ∧
    3 ≤ accRange (runOps sampleConsts
      ([Op.onGesture 0 .SixG 0, Op.setAccelerometerRange .OneG] ++
        [(0, Gesture.ThreeG, 1)].map (fun c => Op.onGesture c.1 c.2.1 c.2.2)) World.fresh) :=
  ⟨by decide,
    ((C5_range_covers_since_last_set sampleConsts (by decide)
      [Op.onGesture 0 .SixG 0, Op.setAccelerometerRange .OneG] []).1 .FourG).1,
    (C5_range_covers_since_last_set sampleConsts (by decide)
      [Op.onGesture 0 .SixG 0, Op.setAccelerometerRange .OneG] [(0, Gesture.ThreeG, 1)]).2.1,
    ((C5_range_covers_since_last_set sampleConsts (by decide)
      [Op.onGesture 0 .SixG 0, Op.setAccelerometerRange .OneG] [(0, Gesture.ThreeG, 1)]).2.2
        (0, Gesture.ThreeG, 1) (by decide)).1 rfl⟩

/-! ## Registration with the event bridge -/

theorem subscriptions_of_log (w : World) (es : List Effect) (l : List Effect)
    (h : l = w.log ++ es) :
    List.filterMap (fun e => match e with
      | Effect.registerWithDal id ev b => some (id, ev, b)
      | _ => none) l =
    subscriptions w ++ List.filterMap (fun e => match e with
      | Effect.registerWithDal id ev b => some (id, ev, b)
      | _ => none) es := by
  rw [h, List.filterMap_append]
  rfl

/-- Claim C6. For every gesture, callback and state, `onGesture` appends to the
effect log a block that ends with the registration of (gesture channel id, event
code of the gesture, callback) and otherwise holds only the hub construction and
the `setRange(4)` or `setRange(8)` of an escalation, all before the registration;
the registrations made are those made before followed by this single new one. -/
theorem C6_registers_one_subscription (k : DeviceConsts) (a : Accelerometer) (g : Gesture)
    (cb : Action) (w : World) :
    subscriptions (onGesture k a g cb w) =
      subscriptions w ++ [(k.DEVICE_ID_GESTURE, Gesture.toInt k g, cb)] ∧
    ∃ mid : List Effect,
      (onGesture k a g cb w).log =
        w.log ++ mid ++ [Effect.registerWithDal k.DEVICE_ID_GESTURE (Gesture.toInt k g) cb] ∧
      (∀ e ∈ mid, e = Effect.construct ∨ e = Effect.setRange 4 ∨ e = Effect.setRange 8) ∧
      (accRange (onGesture k a g cb w) ≠ accRange w →
        Effect.setRange (accRange (onGesture k a g cb w)) ∈ mid) := by
  have hmid : ∀ e ∈ inpEffects w ++ escalationEffects k (accRange w) (Gesture.toInt k g),
      e = Effect.construct ∨ e = Effect.setRange 4 ∨ e = Effect.setRange 8 := by
    intro e he
    rcases List.mem_append.1 he with h | h
    · unfold inpEffects at h
      cases hw : w._instance <;> simp [hw] at h
      exact Or.inl h
    · unfold escalationEffects at h
      split_ifs at h <;> simp at h
      · exact Or.inr (Or.inl h)
      · exact Or.inr (Or.inr h)
  constructor
  · unfold subscriptions
    rw [subscriptions_of_log w _ _ (by rw [onGesture_log, List.append_assoc])]
    congr 1
    rw [List.filterMap_append, List.filterMap_eq_nil_iff.2]
    · rfl
    · intro e he
      rcases hmid e he with h | h | h <;> rw [h]
  · refine ⟨_, onGesture_log k a g cb w, hmid, ?_⟩
    intro hne
    rw [accRange_onGesture_step] at hne ⊢
    apply List.mem_append_right
    unfold stepRange at hne ⊢
    unfold escalationEffects
    split_ifs at hne ⊢ <;> simp at hne ⊢

/-! ## The hub accessor -/

theorem inpTimes_of_instance (n : Nat) (w : World) (i : Input) (h : w._instance = some i) :
    inpTimes n w = (List.replicate n i, w) := by
  induction n with
  | zero => rfl
  | succ n ih =>
    simp only [inpTimes, inp_of_instance h, ih, List.replicate_succ]

theorem constructions_inp_of_none (w : World) (h : w._instance = none) :
    constructions (inp w).2 = constructions w + 1 := by
  unfold constructions
  rw [inp_log]
  unfold inpEffects
  simp [h]

/-- Claim C8. From a state without a hub, `N >= 1` calls of `inp` all return the
hub built by the first call, leave the state as it was after the first call, and
construct the peripherals exactly once; and a call in a state that already has a
hub returns that hub and leaves the state untouched. -/
theorem C8_inp_idempotent (N : Nat) (hN : 1 ≤ N) (w : World) (hw : w._instance = none) :
    (inpTimes N w).1 = List.replicate N (inp w).1 ∧
    (inpTimes N w).2 = (inp w).2 ∧
    constructions (inpTimes N w).2 = constructions w + 1 ∧
    (∀ (v : World) (i : Input), v._instance = some i → inp v = (i, v)) := by
  obtain ⟨n, rfl⟩ : ∃ n, N = n + 1 := ⟨N - 1, by omega⟩
  have e : inpTimes (n + 1) w = ((inp w).1 :: (inpTimes n (inp w).2).1,
      (inpTimes n (inp w).2).2) := rfl
  rw [e, inpTimes_of_instance n _ _ (inp_snd_instance w)]
  exact ⟨by simp [List.replicate_succ], rfl, constructions_inp_of_none w hw,
    fun v i h => inp_of_instance h⟩

theorem C8_inp_idempotent_witness :
    (1 ≤ 3) ∧ World.fresh._instance = none ∧
    (inpTimes 3 World.fresh).1 = List.replicate 3 (inp World.fresh).1 ∧
    (inpTimes 3 World.fresh).2 = (inp World.fresh).2 ∧
    constructions (inpTimes 3 World.fresh).2 = constructions World.fresh + 1 :=
  ⟨by decide, rfl, (C8_inp_idempotent 3 (by decide) World.fresh rfl).1,
    (C8_inp_idempotent 3 (by decide) World.fresh rfl).2.1,
    (C8_inp_idempotent 3 (by decide) World.fresh rfl).2.2.1⟩

/-! ## Reachable ranges -/

theorem validRange_toInt (r : AcceleratorRange) : validRange r.toInt := by
  cases r <;> simp [validRange, AcceleratorRange.toInt]

theorem validRange_stepRange (k : DeviceConsts) (r gi : Int) (h : validRange r) :
    validRange (stepRange k r gi) := by
  unfold stepRange
  split_ifs
  · simp [validRange]
  · simp [validRange]
  · exact h

theorem op_run_valid (k : DeviceConsts) (o : Op) (w : World) :
    (validRange (accRange w) → validRange (accRange (o.run k w))) ∧
    ∃ new : List Int, setRangeCalls (o.run k w) = setRangeCalls w ++ new ∧
      ∀ r ∈ new, validRange r := by
  cases o with
  | onGesture a g b =>
    refine ⟨fun h => ?_, _, setRangeCalls_onGesture k a g b w, ?_⟩
    · show validRange (accRange (onGesture k a g b w))
      rw [accRange_onGesture_step]
      exact validRange_stepRange k _ _ h
    · intro r hr
      split_ifs at hr <;> simp at hr <;> simp [validRange, hr]
  | setAccelerometerRange r =>
    refine ⟨fun _ => ?_, _, setRangeCalls_setAccelerometerRange r w, ?_⟩
    · show validRange (accRange (setAccelerometerRange r w))
      rw [accRange_setAccelerometerRange]
      exact validRange_toInt r
    · intro x hx
      rw [List.mem_singleton] at hx
      rw [hx]
      exact validRange_toInt r

/-- Claim C9. When the range starts as one of 1, 2, 4, 8, then after any sequence
of `onGesture` calls (any gesture) and `setAccelerometerRange` calls (any
enumerator) it is again one of 1, 2, 4, 8, and every value passed to the driver's
`setRange` during the sequence is one of 1, 2, 4, 8. -/
theorem C9_ranges_stay_valid (k : DeviceConsts) (ops : List Op) (w : World)
    (h : validRange (accRange w)) :
    validRange (accRange (runOps k ops w)) ∧
    ∃ new : List Int, setRangeCalls (runOps k ops w) = setRangeCalls w ++ new ∧
      ∀ r ∈ new, validRange r := by
  induction ops generalizing w with
  | nil => exact ⟨h, [], by simp [runOps], by simp⟩
  | cons o os ih =>
    obtain ⟨hv, n1, e1, h1⟩ := op_run_valid k o w
    obtain ⟨hv2, n2, e2, h2⟩ := ih (o.run k w) (hv h)
    refine ⟨hv2, n1 ++ n2, ?_, ?_⟩
    · show setRangeCalls (runOps k os (o.run k w)) = _
      rw [e2, e1, List.append_assoc]
    · intro r hr
      rcases List.mem_append.1 hr with hr | hr
      · exact h1 r hr
      · exact h2 r hr

theorem C9_ranges_stay_valid_witness :
    validRange (accRange World.fresh) ∧
    validRange (accRange (runOps sampleConsts
      [Op.onGesture 0 .ThreeG 0, Op.setAccelerometerRange .OneG, Op.onGesture 0 .EightG 1]
      World.fresh)) :=
  ⟨by decide, (C9_ranges_stay_valid sampleConsts
      [Op.onGesture 0 .ThreeG 0, Op.setAccelerometerRange .OneG, Op.onGesture 0 .EightG 1]
      World.fresh (by decide)).1⟩

/-! ## Independence of the order of subscriptions -/

theorem stepRange_comm (k : DeviceConsts) (r x y : Int) :
    stepRange k (stepRange k r x) y = stepRange k (stepRange k r y) x := by
  unfold stepRange
  split_ifs <;> omega

/-- Claim C10. For every starting state (so for every starting range) and every
two sequences of `onGesture` calls whose gestures are permutations of one
another, the configured range after the first sequence equals the range after the
second. -/
theorem C10_order_independent (k : DeviceConsts)
    (calls1 calls2 : List (Accelerometer × Gesture × Action))
    (hperm : (calls1.map (fun c => c.2.1)).Perm (calls2.map (fun c => c.2.1)))
    (w : World) :
    accRange (onGestures k calls1 w) = accRange (onGestures k calls2 w) := by
  have hp : (calls1.map (fun c => Gesture.toInt k c.2.1)).Perm
      (calls2.map (fun c => Gesture.toInt k c.2.1)) := by
    have := hperm.map (Gesture.toInt k)
    simpa [List.map_map, Function.comp_def] using this
  rw [accRange_onGestures, accRange_onGestures]
  exact hp.foldl_eq' (fun x _ y _ z => stepRange_comm k z x y) _

theorem C10_order_independent_witness :
    ([(0, Gesture.ThreeG, 0), (0, Gesture.SixG, 1)].map (fun c => c.2.1)).Perm
      ([(5, Gesture.SixG, 7), (6, Gesture.ThreeG, 8)].map (fun c => c.2.1)) ∧
    accRange (onGestures sampleConsts [(0, Gesture.ThreeG, 0), (0, Gesture.SixG, 1)]
      (worldWithRange 1)) =
    accRange (onGestures sampleConsts [(5, Gesture.SixG, 7), (6, Gesture.ThreeG, 8)]
      (worldWithRange 1)) :=
  ⟨by decide, C10_order_independent sampleConsts _ _ (by decide) (worldWithRange 1)⟩

/-! ## The strength read-out -/

theorem round_sqrt_div (v P r : Nat) (hP : 0 < P) (h1 : r * r ≤ v)
    (h2 : v * (P * P) + (r + 1) * P ≤ ((r + 1) * P) * ((r + 1) * P)) :
    (if Nat.sqrt (v * (P * P)) * Nat.sqrt (v * (P * P)) + Nat.sqrt (v * (P * P)) < v * (P * P)
      then Nat.sqrt (v * (P * P)) + 1 else Nat.sqrt (v * (P * P))) / P = r := by
  set n := v * (P * P) with hn
  set k0 := Nat.sqrt n with hk0
  have hlo : r * P ≤ k0 := by
    rw [hk0, Nat.le_sqrt]
    calc r * P * (r * P) = r * r * (P * P) := by ring
      _ ≤ n := Nat.mul_le_mul_right _ h1
  have hhi : k0 < (r + 1) * P := by
    rw [hk0, Nat.sqrt_lt]
    have : 0 < (r + 1) * P := Nat.mul_pos (Nat.succ_pos r) hP
    omega
  apply Nat.div_eq_of_lt_le
  · split_ifs <;> omega
  · split_ifs with hr
    · by_contra hcon
      have hk : k0 + 1 = (r + 1) * P := by
        have : Nat.succ r * P = (r + 1) * P := rfl
        omega
      rw [← hk] at h2
      have : (k0 + 1) * (k0 + 1) = k0 * k0 + k0 + (k0 + 1) := by ring
      omega
    · exact hhi

theorem four_pow (p : Nat) : 4 ^ p = 2 ^ p * 2 ^ p := by
  rw [← Nat.mul_pow]

theorem sqrtf_toInt_of_bounds (v r : Nat) (h1 : r * r ≤ v)
    (h2 : v * (2 ^ ((47 - Nat.log2 v) / 2) * 2 ^ ((47 - Nat.log2 v) / 2)) +
        (r + 1) * 2 ^ ((47 - Nat.log2 v) / 2) ≤
      ((r + 1) * 2 ^ ((47 - Nat.log2 v) / 2)) * ((r + 1) * 2 ^ ((47 - Nat.log2 v) / 2))) :
    (sqrtf v).toInt = (r : Int) := by
  unfold Float32.toInt sqrtf
  simp only [four_pow]
  rw [round_sqrt_div v _ r (Nat.pos_pow_of_pos _ (by decide)) h1 h2]

theorem log2_eq_of_bounds (n k : Nat) (h1 : 2 ^ k ≤ n) (h2 : n < 2 ^ (k + 1)) :
    Nat.log2 n = k := by
  have hn : n ≠ 0 := by
    have : 0 < 2 ^ k := Nat.pos_pow_of_pos _ (by decide)
    omega
  have a := (Nat.le_log2 hn).2 h1
  have b := (Nat.log2_lt hn).2 h2
  omega

theorem sqrtf_small (s : Nat) (hs : s < 2 ^ 24) : (sqrtf s).toInt = (Nat.sqrt s : Int) := by
  have hr : Nat.sqrt s < 4096 := by
    rw [Nat.sqrt_lt]
    exact hs
  have hp : 12 ≤ (47 - Nat.log2 s) / 2 := by
    have : Nat.log2 s < 24 := by
      by_cases h0 : s = 0
      · rw [h0, Nat.log2_zero]; decide
      · exact (Nat.log2_lt h0).2 hs
    omega
  apply sqrtf_toInt_of_bounds s _ (Nat.sqrt_le s)
  generalize (47 - Nat.log2 s) / 2 = p at hp
  have hP : Nat.sqrt s + 1 ≤ 2 ^ p :=
    calc Nat.sqrt s + 1 ≤ 2 ^ 12 := hr
      _ ≤ 2 ^ p := Nat.pow_le_pow_right (by decide) hp
  have hs1 : s + 1 ≤ (Nat.sqrt s + 1) * (Nat.sqrt s + 1) := Nat.lt_succ_sqrt s
  generalize Nat.sqrt s = r at hP hs1
  generalize 2 ^ p = P at hP
  nlinarith [Nat.mul_le_mul_right (P * P) hs1, Nat.mul_le_mul_right P hP]

theorem floatOfInt_of_lt (s : Nat) (hs : s < 2 ^ 24) : floatOfInt s = s := by
  unfold floatOfInt
  rw [if_pos hs]

theorem floatOfInt_bounds_mid (s : Nat) (h1 : 2 ^ 24 ≤ s) (h2 : s ≤ 16785406) :
    2 ^ 24 ≤ floatOfInt s ∧ floatOfInt s ≤ 16785406 := by
  have hl : Nat.log2 s = 24 := log2_eq_of_bounds s 24 h1 (by norm_num; omega)
  unfold floatOfInt roundNearestEven
  rw [if_neg (by omega), hl]
  norm_num at h1 ⊢
  split_ifs <;> omega

theorem sqrtf_mid (v : Nat) (h1 : 2 ^ 24 ≤ v) (h2 : v ≤ 16785406) :
    (sqrtf v).toInt = 4096 := by
  have hl : Nat.log2 v = 24 := log2_eq_of_bounds v 24 h1 (by norm_num; omega)
  have := sqrtf_toInt_of_bounds v 4096 (by norm_num at h1 ⊢; omega) (by
    rw [hl]
    norm_num
    omega)
  simpa using this

/-- The read-out is exact up to 16785406. -/
theorem sqrtf_floatOfInt_exact (s : Nat) (hs : s ≤ 16785406) :
    (sqrtf (floatOfInt s)).toInt = (Nat.sqrt s : Int) := by
  by_cases h : s < 2 ^ 24
  · rw [floatOfInt_of_lt s h, sqrtf_small s h]
  · have h1 : 2 ^ 24 ≤ s := Nat.le_of_not_lt h
    obtain ⟨a, b⟩ := floatOfInt_bounds_mid s h1 hs
    rw [sqrtf_mid _ a b]
    have : Nat.sqrt s = 4096 := by
      symm
      rw [Nat.eq_sqrt]
      norm_num at h1 ⊢
      omega
    rw [this]
    rfl

theorem floatOfInt_even_mid (s : Nat) (h1 : 2 ^ 24 ≤ s) (h2 : s < 2 ^ 25) (he : s % 2 = 0) :
    floatOfInt s = s := by
  have hl : Nat.log2 s = 24 := log2_eq_of_bounds s 24 h1 h2
  unfold floatOfInt roundNearestEven
  rw [if_neg (by omega), hl]
  norm_num at h1 h2 ⊢
  rw [if_neg (by omega)]
  omega

theorem sqrtf_round_up (v L k0 : Nat) (hL : Nat.log2 v = L)
    (h1 : k0 * k0 + k0 < v * 4 ^ ((47 - L) / 2))
    (h2 : v * 4 ^ ((47 - L) / 2) < (k0 + 1) * (k0 + 1)) :
    sqrtf v = { num := k0 + 1, scale := (47 - L) / 2 } := by
  have hs : Nat.sqrt (v * 4 ^ ((47 - L) / 2)) = k0 := by
    symm
    rw [Nat.eq_sqrt]
    exact ⟨by omega, h2⟩
  unfold sqrtf
  simp only [hL, hs, if_pos h1]

theorem sqrtf_floatOfInt_16785408 : (sqrtf (floatOfInt 16785408)).toInt = 4097 := by
  rw [floatOfInt_even_mid 16785408 (by norm_num) (by norm_num) (by norm_num),
    sqrtf_round_up 16785408 24 8390655
      (log2_eq_of_bounds 16785408 24 (by norm_num) (by norm_num)) (by norm_num) (by norm_num)]
  unfold Float32.toInt
  norm_num

theorem roundNearestEven_bounds (s H : Nat) (hH : 0 < H) :
    s ≤ (if s % (2 * H) > H ∨ (s % (2 * H) = H ∧ s / (2 * H) % 2 = 1) then
        s / (2 * H) + 1 else s / (2 * H)) * (2 * H) + H ∧
    (if s % (2 * H) > H ∨ (s % (2 * H) = H ∧ s / (2 * H) % 2 = 1) then
        s / (2 * H) + 1 else s / (2 * H)) * (2 * H) ≤ s + H := by
  have hdm := Nat.div_add_mod s (2 * H)
  have hlt := Nat.mod_lt s (show 0 < 2 * H by omega)
  generalize s / (2 * H) = q at *
  generalize s % (2 * H) = rem at *
  have e1 : (q + 1) * (2 * H) = 2 * H * q + 2 * H := by ring
  have e2 : q * (2 * H) = 2 * H * q := by ring
  split_ifs with h
  · rw [e1]
    constructor
    · omega
    · rcases h with h | h <;> omega
  · rw [e2]
    constructor
    · have : rem ≤ H := by
        by_contra hc
        exact h (Or.inl (by omega))
      omega
    · omega

theorem floatOfInt_bounds (s d : Nat) (h1 : 2 ^ (d + 24) ≤ s) (h2 : s < 2 ^ (d + 25)) :
    s ≤ floatOfInt s + 2 ^ d ∧ floatOfInt s ≤ s + 2 ^ d ∧
    2 ^ (d + 24) ≤ floatOfInt s ∧ floatOfInt s ≤ 2 ^ (d + 25) := by
  have hl : Nat.log2 s = d + 24 := log2_eq_of_bounds s (d + 24) h1 h2
  have hH : 0 < 2 ^ d := Nat.pos_pow_of_pos _ (by decide)
  have h24 : 2 ^ 24 ≤ s := le_trans (Nat.pow_le_pow_right (by decide) (by omega)) h1
  have hsh : d + 24 - 23 = d + 1 := by omega
  have e : floatOfInt s =
      (if s % (2 * 2 ^ d) > 2 ^ d ∨ (s % (2 * 2 ^ d) = 2 ^ d ∧ s / (2 * 2 ^ d) % 2 = 1) then
        s / (2 * 2 ^ d) + 1 else s / (2 * 2 ^ d)) * (2 * 2 ^ d) := by
    unfold floatOfInt roundNearestEven
    rw [if_neg (by omega), hl, hsh, if_neg (by omega)]
    simp only [Nat.add_sub_cancel, pow_succ, Nat.mul_comm (2 ^ d) 2]
  obtain ⟨b1, b2⟩ := roundNearestEven_bounds s (2 ^ d) hH
  rw [← e] at b1 b2
  refine ⟨b1, b2, ?_, ?_⟩
  · rw [e]
    have hq : 2 ^ 23 ≤ s / (2 * 2 ^ d) := by
      rw [Nat.le_div_iff_mul_le (by omega)]
      calc 2 ^ 23 * (2 * 2 ^ d) = 2 ^ (d + 24) := by ring
        _ ≤ s := h1
    have e3 : 2 ^ (d + 24) = 2 ^ 23 * (2 * 2 ^ d) := by ring
    rw [e3]
    apply Nat.mul_le_mul_right
    split_ifs <;> omega
  · rw [e]
    have hq : s / (2 * 2 ^ d) < 2 ^ 24 := by
      rw [Nat.div_lt_iff_lt_mul (by omega)]
      calc s < 2 ^ (d + 25) := h2
        _ = 2 ^ 24 * (2 * 2 ^ d) := by ring
    have e3 : 2 ^ (d + 25) = 2 ^ 24 * (2 * 2 ^ d) := by ring
    rw [e3]
    apply Nat.mul_le_mul_right
    split_ifs <;> omega

theorem round_sqrt_div_ge (v P r : Nat) (hP : 0 < P) (h : r * r * P < v * P + r) :
    r ≤ (if Nat.sqrt (v * (P * P)) * Nat.sqrt (v * (P * P)) + Nat.sqrt (v * (P * P)) <
        v * (P * P)
      then Nat.sqrt (v * (P * P)) + 1 else Nat.sqrt (v * (P * P))) / P := by
  rw [Nat.le_div_iff_mul_le hP]
  have hn : r * P * (r * P) < v * (P * P) + r * P := by
    have := Nat.mul_lt_mul_of_pos_right h hP
    calc r * P * (r * P) = r * r * P * P := by ring
      _ < (v * P + r) * P := this
      _ = v * (P * P) + r * P := by ring
  have hlt := Nat.lt_succ_sqrt (v * (P * P))
  have hle := Nat.sqrt_le (v * (P * P))
  generalize Nat.sqrt (v * (P * P)) = k0 at *
  generalize v * (P * P) = n at *
  generalize r * P = m at *
  by_cases hk : m ≤ k0
  · split_ifs <;> omega
  · have hk1 : k0 + 1 ≤ m := by omega
    have hkm : k0 + 1 = m := by
      by_contra hne
      have h2 : k0 + 2 ≤ m := by omega
      have : (k0 + 2) * (k0 + 2) ≤ m * m := Nat.mul_le_mul h2 h2
      have e : (k0 + 2) * (k0 + 2) = Nat.succ k0 * Nat.succ k0 + 2 * k0 + 3 := by
        simp only [Nat.succ_eq_add_one]; ring
      have e2 : m * m ≤ n + m := by omega
      nlinarith
    have hup : k0 * k0 + k0 < n := by
      have e : m * m = k0 * k0 + k0 + (k0 + 1) := by rw [← hkm]; ring
      omega
    rw [if_pos hup]
    omega

theorem round_sqrt_div_le (v P r : Nat) (hP : 0 < P)
    (h : v * (P * P) + 2 * ((r + 2) * P) ≤ ((r + 2) * P) * ((r + 2) * P)) :
    (if Nat.sqrt (v * (P * P)) * Nat.sqrt (v * (P * P)) + Nat.sqrt (v * (P * P)) <
        v * (P * P)
      then Nat.sqrt (v * (P * P)) + 1 else Nat.sqrt (v * (P * P))) / P ≤ r + 1 := by
  apply Nat.le_of_lt_succ
  rw [Nat.div_lt_iff_lt_mul hP]
  have hle := Nat.sqrt_le (v * (P * P))
  have hM : 0 < (r + 2) * P := Nat.mul_pos (by omega) hP
  generalize Nat.sqrt (v * (P * P)) = k0 at *
  generalize v * (P * P) = n at *
  have e : Nat.succ (r + 1) * P = (r + 2) * P := rfl
  rw [e]
  generalize (r + 2) * P = M at *
  have : k0 + 1 < M := by
    by_contra hc
    have h1 : M ≤ k0 + 1 := by omega
    obtain ⟨M', rfl⟩ : ∃ M', M = M' + 1 := ⟨M - 1, by omega⟩
    have h2 : M' ≤ k0 := by omega
    have : M' * M' ≤ k0 * k0 := Nat.mul_le_mul h2 h2
    have e : (M' + 1) * (M' + 1) = M' * M' + 2 * M' + 1 := by ring
    omega
  split_ifs <;> omega

theorem sqrtf_floatOfInt_near (s d : Nat) (h1 : 2 ^ (d + 24) ≤ s) (h2 : s < 2 ^ (d + 25))
    (hd : d ≤ 6) :
    (Nat.sqrt s : Int) ≤ (sqrtf (floatOfInt s)).toInt ∧
    (sqrtf (floatOfInt s)).toInt ≤ (Nat.sqrt s : Int) + 1 := by
  obtain ⟨b1, b2, b3, b4⟩ := floatOfInt_bounds s d h1 h2
  generalize floatOfInt s = v at *
  have hpos : 0 < 2 ^ (d + 24) := Nat.pos_pow_of_pos _ (by decide)
  have hv0 : v ≠ 0 := by omega
  have hL1 : d + 24 ≤ Nat.log2 v := (Nat.le_log2 hv0).2 b3
  have hL2 : Nat.log2 v < d + 26 := by
    rw [Nat.log2_lt hv0]
    calc v ≤ 2 ^ (d + 25) := b4
      _ < 2 ^ (d + 26) := Nat.pow_lt_pow_right (by decide) (by omega)
  have hp1 : 2 * ((47 - Nat.log2 v) / 2) + d ≤ 23 := by omega
  have hp2 : 1 ≤ (47 - Nat.log2 v) / 2 := by omega
  unfold sqrtf Float32.toInt
  simp only [four_pow]
  generalize (47 - Nat.log2 v) / 2 = p at hp1 hp2
  have hP : 0 < 2 ^ p := Nat.pos_pow_of_pos _ (by decide)
  have hP2 : 2 ≤ 2 ^ p :=
    calc 2 = 2 ^ 1 := rfl
      _ ≤ 2 ^ p := Nat.pow_le_pow_right (by decide) hp2
  have hd64 : 2 ^ d ≤ 64 :=
    calc 2 ^ d ≤ 2 ^ 6 := Nat.pow_le_pow_right (by decide) hd
      _ = 64 := rfl
  have hs24 : 2 ^ 24 ≤ s := le_trans (Nat.pow_le_pow_right (by decide) (by omega)) h1
  have hr : 4096 ≤ Nat.sqrt s := by
    rw [Nat.le_sqrt]
    exact hs24
  have hr1 : Nat.sqrt s * Nat.sqrt s ≤ s := Nat.sqrt_le s
  have hr2 : s + 1 ≤ (Nat.sqrt s + 1) * (Nat.sqrt s + 1) := Nat.lt_succ_sqrt s
  have hx : 2 * (2 ^ d * 2 ^ p) * (2 ^ d * 2 ^ p) ≤ s :=
    calc 2 * (2 ^ d * 2 ^ p) * (2 ^ d * 2 ^ p) = 2 ^ (2 * p + d + (d + 1)) := by ring
      _ ≤ 2 ^ (d + 24) := Nat.pow_le_pow_right (by decide) (by omega)
      _ ≤ s := h1
  generalize Nat.sqrt s = r at hr hr1 hr2
  have hxr : 2 ^ d * 2 ^ p < r := by
    by_contra hc
    have h3 : r ≤ 2 ^ d * 2 ^ p := by omega
    have h4 : r * r ≤ (2 ^ d * 2 ^ p) * (2 ^ d * 2 ^ p) := Nat.mul_le_mul h3 h3
    nlinarith
  have hlo : r * r * 2 ^ p < v * 2 ^ p + r := by
    have h5 : r * r * 2 ^ p ≤ (v + 2 ^ d) * 2 ^ p := Nat.mul_le_mul_right _ (by omega)
    have e : (v + 2 ^ d) * 2 ^ p = v * 2 ^ p + 2 ^ d * 2 ^ p := by ring
    omega
  have hA : v + (r + 2) ≤ (r + 2) * (r + 2) := by
    have e : (r + 2) * (r + 2) = (r + 1) * (r + 1) + 2 * r + 3 := by ring
    omega
  have hhi : v * (2 ^ p * 2 ^ p) + 2 * ((r + 2) * 2 ^ p) ≤
      ((r + 2) * 2 ^ p) * ((r + 2) * 2 ^ p) :=
    calc v * (2 ^ p * 2 ^ p) + 2 * ((r + 2) * 2 ^ p)
        = v * (2 ^ p * 2 ^ p) + (r + 2) * 2 ^ p * 2 := by ring
      _ ≤ v * (2 ^ p * 2 ^ p) + (r + 2) * 2 ^ p * 2 ^ p :=
          Nat.add_le_add_left (Nat.mul_le_mul_left _ hP2) _
      _ = (v + (r + 2)) * (2 ^ p * 2 ^ p) := by ring
      _ ≤ (r + 2) * (r + 2) * (2 ^ p * 2 ^ p) := Nat.mul_le_mul_right _ hA
      _ = ((r + 2) * 2 ^ p) * ((r + 2) * 2 ^ p) := by ring
  exact ⟨by exact_mod_cast round_sqrt_div_ge v (2 ^ p) r hP hlo,
    by exact_mod_cast round_sqrt_div_le v (2 ^ p) r hP hhi⟩

/-- For every `int` reading the read-out is the integer square root or one more. -/
theorem sqrtf_floatOfInt_within_one (s : Nat) (hs : s < 2 ^ 31) :
    (Nat.sqrt s : Int) ≤ (sqrtf (floatOfInt s)).toInt ∧
    (sqrtf (floatOfInt s)).toInt ≤ (Nat.sqrt s : Int) + 1 := by
  by_cases h : s < 2 ^ 24
  · rw [floatOfInt_of_lt s h, sqrtf_small s h]
    omega
  · have h24 : 2 ^ 24 ≤ s := Nat.le_of_not_lt h
    have hs0 : s ≠ 0 := by
      have : 0 < 2 ^ 24 := Nat.pos_pow_of_pos _ (by decide)
      omega
    have hL1 : 24 ≤ Nat.log2 s := (Nat.le_log2 hs0).2 h24
    have hL2 : Nat.log2 s < 31 := (Nat.log2_lt hs0).2 hs
    obtain ⟨d, hd⟩ : ∃ d, Nat.log2 s = d + 24 := ⟨Nat.log2 s - 24, by omega⟩
    have h1 : 2 ^ (d + 24) ≤ s := by rw [← hd]; exact Nat.log2_self_le hs0
    have h2 : s < 2 ^ (d + 25) := by
      have := @Nat.lt_log2_self s
      rw [hd] at this
      exact this
    exact sqrtf_floatOfInt_near s d h1 h2 (by omega)


theorem instantaneousAccelerationSquared_nonneg (a : LIS3DH) :
    0 ≤ a.instantaneousAccelerationSquared := by
  unfold LIS3DH.instantaneousAccelerationSquared
  nlinarith [mul_self_nonneg a.x, mul_self_nonneg a.y, mul_self_nonneg a.z]

theorem acceleration_strength (w : World) :
    (acceleration .Strength w).1 =
      (sqrtf (floatOfInt (inp w).1.acc.instantaneousAccelerationSquared.toNat)).toInt := rfl

/-- Claim C7, refuted as stated: for the driver reading (4096, 64, 64), whose
squared magnitude is 16785408, `acceleration(Strength)` returns 4097, and 4097 is
not the integer square root of 16785408, because its square is larger. -/
theorem C7_counterexample :
    (inp (worldWithSample 4096 64 64)).1.acc.instantaneousAccelerationSquared = 16785408 ∧
    (acceleration .Strength (worldWithSample 4096 64 64)).1 = 4097 ∧
    ¬ ((acceleration .Strength (worldWithSample 4096 64 64)).1 *
        (acceleration .Strength (worldWithSample 4096 64 64)).1 ≤
      (inp (worldWithSample 4096 64 64)).1.acc.instantaneousAccelerationSquared) := by
  have h1 : (inp (worldWithSample 4096 64 64)).1.acc.instantaneousAccelerationSquared =
      16785408 := by decide
  have h2 : (acceleration .Strength (worldWithSample 4096 64 64)).1 = 4097 := by
    rw [acceleration_strength, h1]
    exact sqrtf_floatOfInt_16785408
  rw [h2, h1]
  exact ⟨rfl, rfl, by decide⟩

/-- Claim C7, amended. For every state in which the squared magnitude `s` reported
by the driver fits an `int` (`s < 2 ^ 31`), with `q` the integer square root of `s`
(`0 <= q` and `q * q <= s < (q + 1) * (q + 1)`), `acceleration(Strength)` returns
`q` or `q + 1`, and it returns `q` whenever `s <= 16785406`. -/
theorem C7_strength_near_sqrt (w : World)
    (hs : (inp w).1.acc.instantaneousAccelerationSquared < 2 ^ 31) :
    ∃ q : Int, 0 ≤ q ∧
      q * q ≤ (inp w).1.acc.instantaneousAccelerationSquared ∧
      (inp w).1.acc.instantaneousAccelerationSquared < (q + 1) * (q + 1) ∧
      ((acceleration .Strength w).1 = q ∨ (acceleration .Strength w).1 = q + 1) ∧
      ((inp w).1.acc.instantaneousAccelerationSquared ≤ 16785406 →
        (acceleration .Strength w).1 = q) := by
  rw [acceleration_strength]
  obtain ⟨n, hn⟩ := Int.eq_ofNat_of_zero_le
    (instantaneousAccelerationSquared_nonneg (inp w).1.acc)
  rw [hn] at hs ⊢
  have hn' : n < 2 ^ 31 := by exact_mod_cast hs
  rw [Int.toNat_ofNat]
  refine ⟨(Nat.sqrt n : Int), Int.natCast_nonneg _, ?_, ?_, ?_, ?_⟩
  · exact_mod_cast Nat.sqrt_le n
  · exact_mod_cast Nat.lt_succ_sqrt n
  · obtain ⟨a, b⟩ := sqrtf_floatOfInt_within_one n hn'
    omega
  · intro h
    exact sqrtf_floatOfInt_exact n (by exact_mod_cast h)

theorem C7_strength_near_sqrt_witness :
    (inp (worldWithSample 0 0 (-1024))).1.acc.instantaneousAccelerationSquared = 1048576 ∧
    (acceleration .Strength (worldWithSample 0 0 (-1024))).1 = 1024 := by
  have h1 : (inp (worldWithSample 0 0 (-1024))).1.acc.instantaneousAccelerationSquared =
      1048576 := by decide
  obtain ⟨q, h0, hlo, hhi, _, hq⟩ :=
    C7_strength_near_sqrt (worldWithSample 0 0 (-1024)) (by rw [h1]; decide)
  rw [h1] at hlo hhi hq
  refine ⟨h1, ?_⟩
  rw [hq (by decide)]
  nlinarith

end pxt
